import Mathlib

/-!
Verification development for the campaign-finance notebook and the lazy
relational expression engine it drives.  The notebook's own functions
(`get_election_type`, `bucketize`, the cleaning pipeline, `summary_by`,
the window fraction) are translated directly from the source; the engine
primitives the notebook calls (`substitute`, `bucket`, `join`, `cache`,
window aggregates, `execute`) live in the backing library and are
modelled from the specification.
-/

namespace CampFin

/-- Semantic column value: integer, rational, string, boolean, date, or null. -/
inductive Val : Type where
  | vInt  (i : Int)
  | vRat  (q : ℚ)
  | vStr  (s : String)
  | vBool (b : Bool)
  | vDate (y m d : Nat)
  | vNull
  deriving DecidableEq

/-- Modelled from the spec: the Substitute scalar operator (the engine's
`substitute` primitive is not under src/).  An ordered mapping plus a
declared default: the destination of the first exact key match, else the
default. -/
def substitute (m : List (Val × Val)) (dflt : Val) (x : Val) : Val :=
  match m.find? (fun p => decide (p.1 = x)) with
  | some p => p.2
  | none => dflt

/-- Identity mapping on a list of values: every listed value maps to itself. -/
def idMap (l : List Val) : List (Val × Val) :=
  l.map (fun v => (v, v))

/-- Election-type code table, translated from the notebook's
`get_election_type`. -/
def election_types : List (Val × Val) :=
  [ (Val.vStr "P", Val.vStr "primary")
  , (Val.vStr "G", Val.vStr "general")
  , (Val.vStr "O", Val.vStr "other")
  , (Val.vStr "C", Val.vStr "convention")
  , (Val.vStr "R", Val.vStr "runoff")
  , (Val.vStr "S", Val.vStr "special")
  , (Val.vStr "E", Val.vStr "recount") ]

/-- First character of a string value (`pgi[0]` in the notebook): a
one-character string, the empty string for an empty input, null for a
null input. -/
def firstLetter : Val → Val
  | Val.vStr s => Val.vStr (s.take 1)
  | _ => Val.vNull

/-- Translated from the notebook's `get_election_type`: substitute the first
letter through the code table with a null default (`else_=ibis.NA`). -/
def get_election_type (pgi : Val) : Val :=
  substitute election_types Val.vNull (firstLetter pgi)

/-- The seven election-type labels together with null: the only possible
outputs of `get_election_type`. -/
def electionOutputs : List Val :=
  [ Val.vNull, Val.vStr "primary", Val.vStr "general", Val.vStr "other"
  , Val.vStr "convention", Val.vStr "runoff", Val.vStr "special"
  , Val.vStr "recount" ]

/-- Interior interval search for Bucketize: the index of the first adjacent
edge pair with edges[i] ≤ x < edges[i+1], counting pairs from 0. -/
def findIv : List Int → Int → Option Nat
  | e1 :: e2 :: rest, x =>
    if e1 ≤ x ∧ x < e2 then some 0
    else (findIv (e2 :: rest) x).map (· + 1)
  | _, _ => none

/-- Modelled from the spec: the Bucketize operator over a strictly increasing
edge sequence (the engine's `bucket` primitive is not under src/).  Bucket 0
when `include_under` and the value is below the first edge; bucket i
(1-indexed among the edges) when edges[i-1] ≤ v < edges[i]; the final bucket
(index = number of edges) when `include_over` and the value is at or above
the last edge; null when the value falls in no bucket. -/
def bucket (edges : List Int) (iu io : Bool) (x : Int) : Option Nat :=
  match edges with
  | [] => none
  | e0 :: rest =>
    if iu = true ∧ x < e0 then some 0
    else
      match findIv (e0 :: rest) x with
      | some i => some (i + 1)
      | none =>
        if io = true ∧ (e0 :: rest).getLast (List.cons_ne_nil e0 rest) ≤ x then
          some (rest.length + 1)
        else none

/-- Bucketize lifted to column values: a null numeric input yields a null
bucket, as does a non-integer input. -/
def bucketV (edges : List Int) (iu io : Bool) (v : Val) : Val :=
  match v with
  | Val.vInt x =>
    match bucket edges iu io x with
    | some i => Val.vInt (Int.ofNat i)
    | none => Val.vNull
  | _ => Val.vNull

/-- Cast of a value to a string value (`.cast(str)`); null stays null. -/
def castStr : Val → Val
  | Val.vInt i => Val.vStr (toString i)
  | Val.vRat q => Val.vStr (toString q.num ++ "/" ++ toString q.den)
  | Val.vStr s => Val.vStr s
  | Val.vBool b => Val.vStr (if b then "True" else "False")
  | Val.vDate y m d =>
      Val.vStr (toString y ++ "-" ++ toString m ++ "-" ++ toString d)
  | Val.vNull => Val.vNull

/-- Integer-label to string-label mapping, translated from the notebook's
`bucketize` (`int_to_str` built by enumerating the labels). -/
def int_to_str (str_labels : List String) : List (Val × Val) :=
  ((List.range str_labels.length).zip str_labels).map
    (fun p => (Val.vStr (toString p.1), Val.vStr p.2))

/-- Translated from the notebook's `bucketize`: bucket with both under and
over buckets included, cast the integer label to a string, and substitute
it through the label table.  The notebook's `.substitute` call declares no
`else_`, which the engine treats as passing an unmatched value through
unchanged, so the default here is the cast value itself. -/
def bucketize (edges : List Int) (str_labels : List String) (vals : Val) : Val :=
  let int_labels := bucketV edges true true vals
  substitute (int_to_str str_labels) (castStr int_labels) (castStr int_labels)

/-- The notebook's bucket edges. -/
def nbEdges : List Int := [10, 50, 100, 500, 1000, 5000]

/-- The notebook's seven bucket labels. -/
def nbLabels : List String :=
  ["<10", "10-50", "50-100", "100-500", "500-1000", "1000-5000", "5000+"]

/-- Semantic column type. -/
inductive Ty : Type where
  | tInt
  | tRat
  | tStr
  | tBool
  | tDate
  deriving DecidableEq

/-- A materialized row: an ordered association of column names to values. -/
abbrev Row := List (String × Val)

/-- A materialized table: a schema plus rows.  Produced only by the
materializer; modelled from the spec. -/
structure Table where
  schema : List (String × Ty)
  rows : List Row
  deriving DecidableEq

/-- Column lookup in a row: the value of the first entry with the given
name, null when the column is absent. -/
def lookupVal (r : Row) (n : String) : Val :=
  match r.find? (fun p => decide (p.1 = n)) with
  | some p => p.2
  | none => Val.vNull

/-- Column-type lookup in a schema; an unknown column defaults to string. -/
def lookupTy (sc : List (String × Ty)) (n : String) : Ty :=
  match sc.find? (fun p => decide (p.1 = n)) with
  | some p => p.2
  | none => Ty.tStr

/-- The semantic type of a value; null is typed as string by convention. -/
def tyOfVal : Val → Ty
  | Val.vInt _ => Ty.tInt
  | Val.vRat _ => Ty.tRat
  | Val.vStr _ => Ty.tStr
  | Val.vBool _ => Ty.tBool
  | Val.vDate _ _ _ => Ty.tDate
  | Val.vNull => Ty.tStr

/-- Modelled from the spec: scalar expression nodes — the deferred column
expressions the notebook builds against the engine. -/
inductive SExpr : Type where
  | col (name : String)
  | litI (i : Int)
  | litS (s : String)
  | litNull
  | eqE (a b : SExpr)
  | gtE (a b : SExpr)
  | addE (a b : SExpr)
  | divE (a b : SExpr)
  | castS (a : SExpr)
  | firstE (a : SExpr)
  | substE (m : List (Val × Val)) (dflt : SExpr) (a : SExpr)
  | substSelfE (m : List (Val × Val)) (a : SExpr)
  | bucketE (edges : List Int) (iu io : Bool) (a : SExpr)
  | toDateE (a : SExpr)
  | monthE (a : SExpr)
  | concatE (a b : SExpr)
  | winSum (part : List String) (a : SExpr)
  deriving DecidableEq

/-- Modelled from the spec: named per-group aggregate expressions. -/
inductive AggExpr : Type where
  | cnt
  | sumA (e : SExpr)
  | meanA (e : SExpr)
  | medianA (e : SExpr)
  deriving DecidableEq

/-- Modelled from the spec: relational operator graph nodes. -/
inductive RelOp : Type where
  | scan (t : Table)
  | filter (p : SExpr) (c : RelOp)
  | project (cols : List (String × SExpr)) (c : RelOp)
  | dropC (names : List String) (c : RelOp)
  | join (key : String) (l r : RelOp)
  | groupAgg (keys : List (String × SExpr)) (aggs : List (String × AggExpr))
      (c : RelOp)
  | orderBy (key : String) (desc : Bool) (c : RelOp)
  | limit (n : Nat) (c : RelOp)
  | cache (c : RelOp)
  deriving DecidableEq

/-- Static output type of a scalar expression against a schema. -/
def inferTy (sc : List (String × Ty)) : SExpr → Ty
  | SExpr.col n => lookupTy sc n
  | SExpr.litI _ => Ty.tInt
  | SExpr.litS _ => Ty.tStr
  | SExpr.litNull => Ty.tStr
  | SExpr.eqE _ _ => Ty.tBool
  | SExpr.gtE _ _ => Ty.tBool
  | SExpr.addE a _ => inferTy sc a
  | SExpr.divE _ _ => Ty.tRat
  | SExpr.castS _ => Ty.tStr
  | SExpr.firstE _ => Ty.tStr
  | SExpr.substE m d _ =>
      match m with
      | p :: _ => tyOfVal p.2
      | [] => inferTy sc d
  | SExpr.substSelfE _ a => inferTy sc a
  | SExpr.bucketE _ _ _ _ => Ty.tInt
  | SExpr.toDateE _ => Ty.tDate
  | SExpr.monthE _ => Ty.tInt
  | SExpr.concatE _ _ => Ty.tStr
  | SExpr.winSum _ a => inferTy sc a

/-- Static output type of an aggregate expression against a schema. -/
def aggTy (sc : List (String × Ty)) : AggExpr → Ty
  | AggExpr.cnt => Ty.tInt
  | AggExpr.sumA e => inferTy sc e
  | AggExpr.meanA _ => Ty.tRat
  | AggExpr.medianA _ => Ty.tRat

/-- SQL-style equality on values: null when either side is null. -/
def valEq (a b : Val) : Val :=
  match a, b with
  | Val.vNull, _ => Val.vNull
  | _, Val.vNull => Val.vNull
  | x, y => Val.vBool (decide (x = y))

/-- Integer comparison on values: null on non-integer operands. -/
def valGt (a b : Val) : Val :=
  match a, b with
  | Val.vInt x, Val.vInt y => Val.vBool (decide (y < x))
  | _, _ => Val.vNull

/-- Addition on values: null on mixed or non-numeric operands. -/
def valAdd (a b : Val) : Val :=
  match a, b with
  | Val.vInt x, Val.vInt y => Val.vInt (x + y)
  | Val.vRat x, Val.vRat y => Val.vRat (x + y)
  | _, _ => Val.vNull

/-- Modelled from the spec: division of two values.  A zero divisor yields
null — never a runtime failure — and non-integer operands yield null. -/
def valDiv (a b : Val) : Val :=
  match a, b with
  | Val.vInt x, Val.vInt y =>
      if y = 0 then Val.vNull else Val.vRat ((x : ℚ) / (y : ℚ))
  | _, _ => Val.vNull

/-- String concatenation on values: null on non-string operands. -/
def valConcat (a b : Val) : Val :=
  match a, b with
  | Val.vStr x, Val.vStr y => Val.vStr (x ++ y)
  | _, _ => Val.vNull

/-- Left-pad a character list to a length with a pad character (`.lpad`). -/
def lpad (n : Nat) (c : Char) (cs : List Char) : List Char :=
  List.replicate (n - cs.length) c ++ cs

/-- Decimal reading of a digit sequence; none on a non-digit. -/
def digitsToNat? (cs : List Char) : Option Nat :=
  cs.foldl (fun acc c =>
    match acc with
    | none => none
    | some n => if c.isDigit then some (n * 10 + (c.toNat - 48)) else none)
    (some 0)

/-- Translated from the notebook's `mmddyyyy_to_date`, with the backend's
timestamp parsing modelled from the spec: cast to string, left-pad to eight
characters with zeros, and read the MMDDYYYY digits into a date;
unparseable input yields null. -/
def mmddyyyy_to_date (v : Val) : Val :=
  match castStr v with
  | Val.vStr s0 =>
    let cs := lpad 8 '0' s0.data
    if cs.length = 8 then
      match digitsToNat? (cs.take 2), digitsToNat? ((cs.drop 2).take 2),
          digitsToNat? (cs.drop 4) with
      | some m, some d, some y => Val.vDate y m d
      | _, _, _ => Val.vNull
    else Val.vNull
  | _ => Val.vNull

/-- Month accessor on a date value (`.month()`). -/
def monthOf : Val → Val
  | Val.vDate _ m _ => Val.vInt (Int.ofNat m)
  | _ => Val.vNull

/-- Sum aggregate over values: the integer sum of the integer entries,
null when there are none (SQL sum semantics). -/
def sumVals (vs : List Val) : Val :=
  match vs.filterMap (fun v => match v with | Val.vInt i => some i | _ => none) with
  | [] => Val.vNull
  | ints => Val.vInt (ints.foldl (· + ·) 0)

/-- Mean aggregate over values: null when no integer entry is present. -/
def meanVals (vs : List Val) : Val :=
  match vs.filterMap (fun v => match v with | Val.vInt i => some i | _ => none) with
  | [] => Val.vNull
  | ints => Val.vRat (((ints.foldl (· + ·) 0 : Int) : ℚ) / (ints.length : ℚ))

/-- Modelled from the spec: approximate median, realised as the exact middle
element of the sorted integer entries — a valid bounded-error estimator. -/
def medianVals (vs : List Val) : Val :=
  match (vs.filterMap
      (fun v => match v with | Val.vInt i => some i | _ => none)).insertionSort (· ≤ ·) with
  | [] => Val.vNull
  | ints => Val.vInt (ints.getD (ints.length / 2) 0)

/-- Modelled from the spec: evaluation of a scalar expression at a row, with
the enclosing operator's full rowset visible so a window aggregate is
computed over the partition of that same rowset. -/
def evalV : List Row → Row → SExpr → Val
  | _, r, SExpr.col n => lookupVal r n
  | _, _, SExpr.litI i => Val.vInt i
  | _, _, SExpr.litS s => Val.vStr s
  | _, _, SExpr.litNull => Val.vNull
  | rows, r, SExpr.eqE a b => valEq (evalV rows r a) (evalV rows r b)
  | rows, r, SExpr.gtE a b => valGt (evalV rows r a) (evalV rows r b)
  | rows, r, SExpr.addE a b => valAdd (evalV rows r a) (evalV rows r b)
  | rows, r, SExpr.divE a b => valDiv (evalV rows r a) (evalV rows r b)
  | rows, r, SExpr.castS a => castStr (evalV rows r a)
  | rows, r, SExpr.firstE a => firstLetter (evalV rows r a)
  | rows, r, SExpr.substE m d a =>
      substitute m (evalV rows r d) (evalV rows r a)
  | rows, r, SExpr.substSelfE m a =>
      substitute m (evalV rows r a) (evalV rows r a)
  | rows, r, SExpr.bucketE edges iu io a => bucketV edges iu io (evalV rows r a)
  | rows, r, SExpr.toDateE a => mmddyyyy_to_date (evalV rows r a)
  | rows, r, SExpr.monthE a => monthOf (evalV rows r a)
  | rows, r, SExpr.concatE a b => valConcat (evalV rows r a) (evalV rows r b)
  | rows, r, SExpr.winSum part e =>
      sumVals ((rows.filter (fun s =>
        decide (part.map (fun n => lookupVal s n)
          = part.map (fun n => lookupVal r n)))).map (fun s => evalV rows s e))

/-- Boolean reading of a predicate expression: only a true boolean passes. -/
def evalB (rows : List Row) (r : Row) (p : SExpr) : Bool :=
  match evalV rows r p with
  | Val.vBool b => b
  | _ => false

/-- Evaluation of an aggregate over the rows of one group. -/
def evalAgg (grp : List Row) : AggExpr → Val
  | AggExpr.cnt => Val.vInt (Int.ofNat grp.length)
  | AggExpr.sumA e => sumVals (grp.map (fun r => evalV grp r e))
  | AggExpr.meanA e => meanVals (grp.map (fun r => evalV grp r e))
  | AggExpr.medianA e => medianVals (grp.map (fun r => evalV grp r e))

/-- The evaluated grouping-key tuple of a row. -/
def keyTuple (rows : List Row) (keys : List (String × SExpr)) (r : Row) :
    List (String × Val) :=
  keys.map (fun p => (p.1, evalV rows r p.2))

/-- The rows of a rowset contributing to the group with the given key
tuple: exactly those whose evaluated grouping key equals it. -/
def partRows (rows : List Row) (keys : List (String × SExpr))
    (k : List (String × Val)) : List Row :=
  rows.filter (fun r => decide (keyTuple rows keys r = k))

/-- The distinct grouping-key tuples occurring in a rowset. -/
def groupKeys (rows : List Row) (keys : List (String × SExpr)) :
    List (List (String × Val)) :=
  (rows.map (fun r => keyTuple rows keys r)).dedup

/-- Key match for an inner equi-join: a null key never matches. -/
def matchKey (key : String) (rl rr : Row) : Bool :=
  match lookupVal rl key with
  | Val.vNull => false
  | v => decide (lookupVal rr key = v)

/-- Modelled from the spec: inner equi-join rowset; every right-side entry
for the key column is dropped so the key is not duplicated. -/
def joinRows (key : String) (ls rs : List Row) : List Row :=
  (ls.map (fun rl =>
    (rs.filter (fun rr => matchKey key rl rr)).map
      (fun rr => rl ++ rr.filter (fun p => decide (p.1 ≠ key))))).join

/-- Ordering used by `orderBy`: comparable values by their order, anything
else considered already in order. -/
def valLeB : Val → Val → Bool
  | Val.vInt x, Val.vInt y => decide (x ≤ y)
  | Val.vRat x, Val.vRat y => decide (x ≤ y)
  | Val.vStr x, Val.vStr y => decide (x ≤ y)
  | _, _ => true

/-- Modelled from the spec: the static schema of every operator node,
derived deterministically from its children and its own expressions,
computable without executing any data. -/
def staticSchema : RelOp → List (String × Ty)
  | RelOp.scan t => t.schema
  | RelOp.filter _ c => staticSchema c
  | RelOp.project cols c =>
      cols.map (fun p => (p.1, inferTy (staticSchema c) p.2))
  | RelOp.dropC names c =>
      (staticSchema c).filter (fun p => decide (p.1 ∉ names))
  | RelOp.join key l r =>
      staticSchema l ++ (staticSchema r).filter (fun p => decide (p.1 ≠ key))
  | RelOp.groupAgg keys aggs c =>
      keys.map (fun p => (p.1, inferTy (staticSchema c) p.2)) ++
        aggs.map (fun p => (p.1, aggTy (staticSchema c) p.2))
  | RelOp.orderBy _ _ c => staticSchema c
  | RelOp.limit _ c => staticSchema c
  | RelOp.cache c => staticSchema c

/-- Modelled from the spec: the materializer's pure execution semantics.
Each node's output table carries a schema assembled from the executed
children — not read off `staticSchema` — together with its rows. -/
def execute : RelOp → Table
  | RelOp.scan t => t
  | RelOp.filter p c =>
      let tc := execute c
      ⟨tc.schema, tc.rows.filter (fun r => evalB tc.rows r p)⟩
  | RelOp.project cols c =>
      let tc := execute c
      ⟨cols.map (fun p => (p.1, inferTy tc.schema p.2)),
       tc.rows.map (fun r => cols.map (fun p => (p.1, evalV tc.rows r p.2)))⟩
  | RelOp.dropC names c =>
      let tc := execute c
      ⟨tc.schema.filter (fun p => decide (p.1 ∉ names)),
       tc.rows.map (fun r => r.filter (fun p => decide (p.1 ∉ names)))⟩
  | RelOp.join key l r =>
      let tl := execute l
      let tr := execute r
      ⟨tl.schema ++ tr.schema.filter (fun p => decide (p.1 ≠ key)),
       joinRows key tl.rows tr.rows⟩
  | RelOp.groupAgg keys aggs c =>
      let tc := execute c
      ⟨keys.map (fun p => (p.1, inferTy tc.schema p.2)) ++
         aggs.map (fun p => (p.1, aggTy tc.schema p.2)),
       (groupKeys tc.rows keys).map (fun k =>
         k ++ aggs.map (fun p => (p.1, evalAgg (partRows tc.rows keys k) p.2)))⟩
  | RelOp.orderBy key desc c =>
      let tc := execute c
      let sorted := tc.rows.insertionSort
        (fun a b => valLeB (lookupVal a key) (lookupVal b key) = true)
      ⟨tc.schema, if desc then sorted.reverse else sorted⟩
  | RelOp.limit n c =>
      let tc := execute c
      ⟨tc.schema, tc.rows.take n⟩
  | RelOp.cache c => execute c

/-- Left operand of the join example: ids 1, 2, 3 with a payload column. -/
def leftT : Table :=
  ⟨[("id", Ty.tInt), ("lv", Ty.tStr)],
   [[("id", Val.vInt 1), ("lv", Val.vStr "a")],
    [("id", Val.vInt 2), ("lv", Val.vStr "b")],
    [("id", Val.vInt 3), ("lv", Val.vStr "c")]]⟩

/-- Right operand of the join example: ids 2, 3, 4 with a payload column. -/
def rightT : Table :=
  ⟨[("id", Ty.tInt), ("rv", Ty.tStr)],
   [[("id", Val.vInt 2), ("rv", Val.vStr "x")],
    [("id", Val.vInt 3), ("rv", Val.vStr "y")],
    [("id", Val.vInt 4), ("rv", Val.vStr "z")]]⟩

/-- The three-row example table for the window-aggregate composition. -/
def t3 : Table :=
  ⟨[("k", Ty.tStr), ("v", Ty.tInt)],
   [[("k", Val.vStr "a"), ("v", Val.vInt 1)],
    [("k", Val.vStr "a"), ("v", Val.vInt 3)],
    [("k", Val.vStr "b"), ("v", Val.vInt 2)]]⟩

/-- Sum window aggregate plus the row fraction, shaped like the notebook's
`frac = _.n_donations / _.n_donations.sum().over(group_by=...)`. -/
def winNode : RelOp :=
  RelOp.project
    [ ("k", SExpr.col "k"), ("v", SExpr.col "v")
    , ("total", SExpr.winSum ["k"] (SExpr.col "v"))
    , ("frac", SExpr.divE (SExpr.col "v") (SExpr.winSum ["k"] (SExpr.col "v"))) ]
    (RelOp.scan t3)

/-- A raw table whose group-by collapses two equal rows into one; used to
show the window aggregate is evaluated over the grouped rowset. -/
def t4 : Table :=
  ⟨[("k", Ty.tStr), ("v", Ty.tInt)],
   [[("k", Val.vStr "a"), ("v", Val.vInt 1)],
    [("k", Val.vStr "a"), ("v", Val.vInt 1)]]⟩

/-- A window aggregate stacked on a group-by result: the per-partition row
count is 1 on the grouped table, where it would be 2 on the raw input. -/
def gStack : RelOp :=
  RelOp.project
    [("k", SExpr.col "k"), ("nrows", SExpr.winSum ["k"] (SExpr.litI 1))]
    (RelOp.groupAgg [("k", SExpr.col "k")]
      [("total", AggExpr.sumA (SExpr.col "v"))] (RelOp.scan t4))

/-- A single row whose partition total is zero. -/
def zeroRow : Row := [("k", Val.vStr "a"), ("v", Val.vInt 0)]

/-- Modelled from the spec: process-wide materializer state — the
fingerprint-to-result cache and the log of plans sent to the backend's
`run` primitive.  The structural fingerprint of a subtree is modelled as
the subtree itself: a perfect recursive hash of every contributing field. -/
structure MState where
  cacheMap : List (RelOp × Table)
  runLog : List RelOp
  deriving DecidableEq

/-- The fresh per-process materializer state. -/
def emptyState : MState := ⟨[], []⟩

/-- Modelled from the spec: materializing a cached subtree.  A fingerprint
hit returns the stored table without touching the backend; a miss runs the
backend (`execute`) on the subtree, stores the result under the
fingerprint, and logs the `run` call. -/
def materializeCached (c : RelOp) (s : MState) : Table × MState :=
  match s.cacheMap.find? (fun p => decide (p.1 = c)) with
  | some p => (p.2, s)
  | none => (execute c, ⟨(c, execute c) :: s.cacheMap, s.runLog ++ [c]⟩)

/-- A session of cache materializations starting from a fresh state. -/
def runMany (cs : List RelOp) : MState :=
  cs.foldl (fun s c => (materializeCached c s).2) emptyState

/-- The builder's `mutate`: project every existing column through and
append one derived column. -/
def mutate (name : String) (e : SExpr) (c : RelOp) : RelOp :=
  RelOp.project
    ((staticSchema c).map (fun p => (p.1, SExpr.col p.1)) ++ [(name, e)]) c

/-- Translated from the notebook:
`together = contribs.join(comms, "CMTE_ID")`. -/
def togetherOp (contribs comms : Table) : RelOp :=
  RelOp.join "CMTE_ID" (RelOp.scan contribs) (RelOp.scan comms)

/-- Translated from the notebook:
`cleaned = together[_.ENTITY_TP == "IND"].drop("ENTITY_TP")`. -/
def cleanedIndOp (contribs comms : Table) : RelOp :=
  RelOp.dropC ["ENTITY_TP"]
    (RelOp.filter (SExpr.eqE (SExpr.col "ENTITY_TP") (SExpr.litS "IND"))
      (togetherOp contribs comms))

/-- Translated from the notebook:
`cleaned.mutate(date=mmddyyyy_to_date(_.TRANSACTION_DT)).drop("TRANSACTION_DT")`. -/
def cleanedDateOp (contribs comms : Table) : RelOp :=
  RelOp.dropC ["TRANSACTION_DT"]
    (mutate "date" (SExpr.toDateE (SExpr.col "TRANSACTION_DT"))
      (cleanedIndOp contribs comms))

/-- Translated from the notebook: the election-type mutate and drop. -/
def cleanedElectionOp (contribs comms : Table) : RelOp :=
  RelOp.dropC ["TRANSACTION_PGI"]
    (mutate "election_type"
      (SExpr.substE election_types SExpr.litNull
        (SExpr.firstE (SExpr.col "TRANSACTION_PGI")))
      (cleanedDateOp contribs comms))

/-- Translated from the notebook: `above_zero = cleaned.TRANSACTION_AMT > 0`
followed by `cleaned = cleaned[above_zero]`. -/
def cleanedOp (contribs comms : Table) : RelOp :=
  RelOp.filter (SExpr.gtE (SExpr.col "TRANSACTION_AMT") (SExpr.litI 0))
    (cleanedElectionOp contribs comms)

/-- Translated from the notebook: the `bucketize` feature column
(`featured = cleaned.mutate(amount_bucket=bucketize(...))`). -/
def featuredOp (contribs comms : Table) : RelOp :=
  mutate "amount_bucket"
    (SExpr.substSelfE (int_to_str nbLabels)
      (SExpr.castS
        (SExpr.bucketE nbEdges true true (SExpr.col "TRANSACTION_AMT"))))
    (cleanedOp contribs comms)

/-- Translated from the notebook: the cached three-column subset. -/
def subsetOp (contribs comms : Table) : RelOp :=
  RelOp.cache (RelOp.project
    [ ("election_type", SExpr.col "election_type")
    , ("amount_bucket", SExpr.col "amount_bucket")
    , ("TRANSACTION_AMT", SExpr.col "TRANSACTION_AMT") ]
    (featuredOp contribs comms))

/-- Translated from the notebook's `summary_by`. -/
def summary_by (t : RelOp) (by_ : List (String × SExpr)) : RelOp :=
  RelOp.groupAgg by_
    [ ("n_donations", AggExpr.cnt)
    , ("total_amount", AggExpr.sumA (SExpr.col "TRANSACTION_AMT"))
    , ("mean_amount", AggExpr.meanA (SExpr.col "TRANSACTION_AMT"))
    , ("median_amount", AggExpr.medianA (SExpr.col "TRANSACTION_AMT")) ]
    t

/-- Translated from the notebook: the by-type-and-bucket summary. -/
def by_type_and_bucket (contribs comms : Table) : RelOp :=
  summary_by (subsetOp contribs comms)
    [ ("election_type", SExpr.col "election_type")
    , ("amount_bucket", SExpr.col "amount_bucket") ]

/-- The transaction amount of a row is a positive integer. -/
abbrev amtPos (r : Row) : Prop :=
  ∃ a : Int, 0 < a ∧ lookupVal r "TRANSACTION_AMT" = Val.vInt a

/-- The row originates from a joined row marked as an individual
contribution carrying the same transaction amount. -/
abbrev origIND (contribs comms : Table) (r : Row) : Prop :=
  ∃ r0 ∈ (execute (togetherOp contribs comms)).rows,
    lookupVal r0 "ENTITY_TP" = Val.vStr "IND" ∧
    lookupVal r "TRANSACTION_AMT" = lookupVal r0 "TRANSACTION_AMT"

/-- A one-row contributions table used to instantiate the pipeline. -/
def contribsW : Table :=
  ⟨[("CMTE_ID", Ty.tStr), ("ENTITY_TP", Ty.tStr), ("TRANSACTION_DT", Ty.tStr),
    ("TRANSACTION_PGI", Ty.tStr), ("TRANSACTION_AMT", Ty.tInt)],
   [[("CMTE_ID", Val.vStr "C1"), ("ENTITY_TP", Val.vStr "IND"),
     ("TRANSACTION_DT", Val.vStr "1012018"),
     ("TRANSACTION_PGI", Val.vStr "P2018"),
     ("TRANSACTION_AMT", Val.vInt 100)]]⟩

/-- A one-row committees table used to instantiate the pipeline. -/
def commsW : Table :=
  ⟨[("CMTE_ID", Ty.tStr), ("CMTE_NM", Ty.tStr)],
   [[("CMTE_ID", Val.vStr "C1"), ("CMTE_NM", Val.vStr "Com")]]⟩

/-- The featured row the pipeline produces from the one-row tables. -/
def featRowW : Row :=
  [("CMTE_ID", Val.vStr "C1"), ("TRANSACTION_AMT", Val.vInt 100),
   ("CMTE_NM", Val.vStr "Com"), ("date", Val.vDate 2018 1 1),
   ("election_type", Val.vStr "primary"), ("amount_bucket", Val.vStr "100-500")]

theorem substitute_not_mem_key (m : List (Val × Val)) (d x : Val)
    (hx : x ∉ m.map Prod.fst) : substitute m d x = d := by
  induction m with
  | nil => rfl
  | cons p m ih =>
    simp only [List.map_cons, List.mem_cons, not_or] at hx
    have hne : decide (p.1 = x) = false :=
      decide_eq_false_iff_not.mpr (fun h => hx.1 h.symm)
    simp only [substitute, List.find?, hne]
    exact ih hx.2

theorem substitute_mem_key (m : List (Val × Val)) (d x v : Val)
    (hv : (x, v) ∈ m) :
    ∃ w, substitute m d x = w ∧ (x, w) ∈ m := by
  induction m with
  | nil => cases hv
  | cons p m ih =>
    by_cases hp : p.1 = x
    · refine ⟨p.2, ?_, ?_⟩
      · simp [substitute, List.find?, hp]
      · refine List.mem_cons.mpr (Or.inl ?_)
        rw [← hp]
    · rcases List.mem_cons.mp hv with hv | hv
      · exact absurd (congrArg Prod.fst hv).symm hp
      · rcases ih hv with ⟨w, hw1, hw2⟩
        refine ⟨w, ?_, List.mem_cons_of_mem _ hw2⟩
        have hne : decide (p.1 = x) = false := decide_eq_false_iff_not.mpr hp
        simp only [substitute, List.find?, hne]
        exact hw1

theorem substitute_range (m : List (Val × Val)) (d x : Val) :
    substitute m d x ∈ m.map Prod.snd ++ [d] := by
  induction m with
  | nil => simp [substitute]
  | cons p m ih =>
    by_cases hp : p.1 = x
    · simp [substitute, List.find?, hp]
    · have hne : decide (p.1 = x) = false := decide_eq_false_iff_not.mpr hp
      have hstep : substitute (p :: m) d x = substitute m d x := by
        simp only [substitute, List.find?, hne]
      rw [hstep]
      simp only [List.map_cons, List.cons_append]
      exact List.mem_cons_of_mem _ ih

theorem idMap_fixes (l : List Val) (d y : Val) (hy : y ∈ l) :
    substitute (idMap l) d y = y := by
  induction l with
  | nil => cases hy
  | cons a l ih =>
    by_cases ha : a = y
    · simp [substitute, idMap, List.find?, ha]
    · rcases List.mem_cons.mp hy with hy1 | hy1
      · exact absurd hy1.symm ha
      · simp only [substitute, idMap, List.map_cons, List.find?]
        rw [show decide ((a, a).1 = y) = false from decide_eq_false_iff_not.mpr ha]
        exact ih hy1

theorem election_substitute_range (x : Val) :
    substitute election_types Val.vNull x ∈ electionOutputs := by
  have hr := substitute_range election_types Val.vNull x
  generalize substitute election_types Val.vNull x = z at hr ⊢
  simp only [election_types, List.map_cons, List.map_nil, List.cons_append,
    List.nil_append, List.mem_cons, List.not_mem_nil, or_false] at hr
  rcases hr with rfl | rfl | rfl | rfl | rfl | rfl | rfl | rfl <;> decide

/-- C2: Substitute with a declared default returns the mapped value on an
exact match and the default otherwise; a null input is its own lookup key
only when null is explicitly present, and otherwise maps to the default. -/
theorem C2_substitute_default :
    (∀ (m : List (Val × Val)) (d x v : Val), (x, v) ∈ m →
        ∃ w, substitute m d x = w ∧ (x, w) ∈ m) ∧
    (∀ (m : List (Val × Val)) (d x : Val), x ∉ m.map Prod.fst →
        substitute m d x = d) ∧
    (∀ (m : List (Val × Val)) (d v : Val), (Val.vNull, v) ∈ m →
        ∃ w, substitute m d Val.vNull = w ∧ (Val.vNull, w) ∈ m) ∧
    (∀ (m : List (Val × Val)) (d : Val), Val.vNull ∉ m.map Prod.fst →
        substitute m d Val.vNull = d) := by
  refine ⟨?_, ?_, ?_, ?_⟩
  · exact fun m d x v hv => substitute_mem_key m d x v hv
  · exact fun m d x hx => substitute_not_mem_key m d x hx
  · exact fun m d v hv => substitute_mem_key m d Val.vNull v hv
  · exact fun m d h => substitute_not_mem_key m d Val.vNull h

theorem C2_substitute_default_witness :
    (Val.vStr "P", Val.vStr "primary") ∈ election_types ∧
    (∃ w, substitute election_types Val.vNull (Val.vStr "P") = w ∧
      (Val.vStr "P", w) ∈ election_types) ∧
    Val.vNull ∉ election_types.map Prod.fst ∧
    substitute election_types (Val.vStr "d") Val.vNull = Val.vStr "d" := by
  refine ⟨by decide, ?_, by decide, ?_⟩
  · exact C2_substitute_default.1 election_types Val.vNull (Val.vStr "P")
      (Val.vStr "primary") (by decide)
  · exact C2_substitute_default.2.2.2 election_types (Val.vStr "d") (by decide)

/-- C8: substituting a column and then substituting again with the identity
mapping on every value the first pass can produce returns the same column. -/
theorem C8_substitute_idempotent (m : List (Val × Val)) (d0 d1 : Val)
    (col : List Val) :
    (col.map (substitute m d0)).map
        (substitute (idMap (m.map Prod.snd ++ [d0])) d1)
      = col.map (substitute m d0) := by
  rw [List.map_map]
  refine List.map_congr_left ?_
  intro x _
  exact idMap_fixes _ d1 _ (substitute_range m d0 x)

/-- C9: `get_election_type` is determined solely by the first character of
its input, maps the seven known codes to their labels, null and unknown
first characters to null, and can produce no other output. -/
theorem C9_get_election_type_spec :
    (∀ s t : String, s.take 1 = t.take 1 →
        get_election_type (Val.vStr s) = get_election_type (Val.vStr t)) ∧
    (∀ s : String, s.take 1 = "P" →
        get_election_type (Val.vStr s) = Val.vStr "primary") ∧
    (∀ s : String, s.take 1 = "G" →
        get_election_type (Val.vStr s) = Val.vStr "general") ∧
    (∀ s : String, s.take 1 = "O" →
        get_election_type (Val.vStr s) = Val.vStr "other") ∧
    (∀ s : String, s.take 1 = "C" →
        get_election_type (Val.vStr s) = Val.vStr "convention") ∧
    (∀ s : String, s.take 1 = "R" →
        get_election_type (Val.vStr s) = Val.vStr "runoff") ∧
    (∀ s : String, s.take 1 = "S" →
        get_election_type (Val.vStr s) = Val.vStr "special") ∧
    (∀ s : String, s.take 1 = "E" →
        get_election_type (Val.vStr s) = Val.vStr "recount") ∧
    (∀ s : String,
        s.take 1 ∉ (["P", "G", "O", "C", "R", "S", "E"] : List String) →
        get_election_type (Val.vStr s) = Val.vNull) ∧
    get_election_type Val.vNull = Val.vNull ∧
    (∀ v : Val, get_election_type v ∈ electionOutputs) := by
  have hred : ∀ s : String, get_election_type (Val.vStr s)
      = substitute election_types Val.vNull (Val.vStr (s.take 1)) :=
    fun s => rfl
  refine ⟨?_, ?_, ?_, ?_, ?_, ?_, ?_, ?_, ?_, ?_, ?_⟩
  · intro s t h
    rw [hred s, hred t, h]
  · intro s h
    rw [hred s, h]
    decide
  · intro s h
    rw [hred s, h]
    decide
  · intro s h
    rw [hred s, h]
    decide
  · intro s h
    rw [hred s, h]
    decide
  · intro s h
    rw [hred s, h]
    decide
  · intro s h
    rw [hred s, h]
    decide
  · intro s h
    rw [hred s, h]
    decide
  · intro s h
    rw [hred s]
    refine substitute_not_mem_key _ _ _ ?_
    intro hmem
    apply h
    simp only [election_types, List.map_cons, List.map_nil,
      List.mem_cons, List.not_mem_nil, or_false] at hmem
    rcases hmem with h1 | h1 | h1 | h1 | h1 | h1 | h1 <;>
      (rw [Val.vStr.injEq] at h1; rw [h1]; decide)
  · decide
  · intro v
    cases v with
    | vStr s =>
      rw [hred s]
      exact election_substitute_range _
    | vInt i => exact election_substitute_range Val.vNull
    | vRat q => exact election_substitute_range Val.vNull
    | vBool b => exact election_substitute_range Val.vNull
    | vDate y m d => exact election_substitute_range Val.vNull
    | vNull => exact election_substitute_range Val.vNull

theorem chain'_head_le (h : Int) (t : List Int) (j : Nat) (a : Int)
    (hc : List.Chain' (· < ·) (h :: t)) (hj : (h :: t).get? j = some a) :
    h ≤ a := by
  induction j generalizing h t with
  | zero =>
    rw [List.get?_cons_zero] at hj
    injection hj with hj
    exact le_of_eq hj
  | succ j ih =>
    cases t with
    | nil => simp [List.get?] at hj
    | cons h2 t2 =>
      rw [List.get?_cons_succ] at hj
      have hc2 := List.chain'_cons.mp hc
      exact le_trans (le_of_lt hc2.1) (ih h2 t2 hc2.2 hj)

theorem chain'_head_le_getLast (e0 : Int) (rest : List Int)
    (hc : List.Chain' (· < ·) (e0 :: rest)) :
    e0 ≤ (e0 :: rest).getLast (List.cons_ne_nil e0 rest) := by
  have h1 : (e0 :: rest).getLast? =
      some ((e0 :: rest).getLast (List.cons_ne_nil e0 rest)) :=
    List.getLast?_eq_getLast _ _
  rw [List.getLast?_eq_get?] at h1
  exact chain'_head_le e0 rest _ _ hc h1

theorem findIv_eq (edges : List Int) (x : Int) (i : Nat) (a b : Int)
    (hc : List.Chain' (· < ·) edges)
    (ha : edges.get? i = some a) (hb : edges.get? (i + 1) = some b)
    (hax : a ≤ x) (hxb : x < b) : findIv edges x = some i := by
  induction edges generalizing i with
  | nil => simp [List.get?] at ha
  | cons e1 tail ih =>
    cases tail with
    | nil =>
      rw [List.get?_cons_succ] at hb
      simp [List.get?] at hb
    | cons e2 rest =>
      cases i with
      | zero =>
        rw [List.get?_cons_zero] at ha
        rw [List.get?_cons_succ, List.get?_cons_zero] at hb
        injection ha with ha
        injection hb with hb
        subst ha
        subst hb
        simp [findIv, hax, hxb]
      | succ j =>
        rw [List.get?_cons_succ] at ha hb
        have hc2 := (List.chain'_cons.mp hc).2
        have he2a : e2 ≤ a := chain'_head_le e2 rest j a hc2 ha
        have hnot : ¬ (e1 ≤ x ∧ x < e2) :=
          fun hcon => absurd hcon.2 (not_lt.mpr (le_trans he2a hax))
        simp only [findIv]
        rw [if_neg hnot, ih j hc2 ha hb]
        rfl

theorem findIv_below (edges : List Int) (x e0 : Int)
    (hc : List.Chain' (· < ·) edges) (h0 : edges.head? = some e0)
    (hx : x < e0) : findIv edges x = none := by
  induction edges generalizing e0 with
  | nil => rfl
  | cons e1 tail ih =>
    injection h0 with h0
    subst h0
    cases tail with
    | nil => rfl
    | cons e2 rest =>
      have hc2 := List.chain'_cons.mp hc
      have hnot : ¬ (e1 ≤ x ∧ x < e2) :=
        fun hcon => absurd hcon.1 (not_le.mpr hx)
      simp only [findIv]
      rw [if_neg hnot, ih e2 hc2.2 rfl (lt_trans hx hc2.1)]
      rfl

theorem findIv_above (edges : List Int) (x el : Int)
    (hc : List.Chain' (· < ·) edges) (hl : edges.getLast? = some el)
    (hx : el ≤ x) : findIv edges x = none := by
  induction edges with
  | nil => rfl
  | cons e1 tail ih =>
    cases tail with
    | nil => rfl
    | cons e2 rest =>
      have hc2 := List.chain'_cons.mp hc
      have hl2 : (e2 :: rest).getLast? = some el := by
        rw [← List.getLast?_cons_cons]
        exact hl
      have he2el : e2 ≤ el := by
        have hg := hl2
        rw [List.getLast?_eq_get?] at hg
        exact chain'_head_le e2 rest _ _ hc2.2 hg
      have hnot : ¬ (e1 ≤ x ∧ x < e2) :=
        fun hcon => absurd hcon.2 (not_lt.mpr (le_trans he2el hx))
      simp only [findIv]
      rw [if_neg hnot, ih hc2.2 hl2]
      rfl

theorem bucket_under (edges : List Int) (io : Bool) (x e0 : Int)
    (h0 : edges.head? = some e0) (hx : x < e0) :
    bucket edges true io x = some 0 := by
  cases edges with
  | nil => simp [List.head?] at h0
  | cons e1 rest =>
    injection h0 with h0
    subst h0
    simp [bucket, hx]

theorem bucket_interior (edges : List Int) (iu io : Bool) (x a b : Int)
    (i : Nat) (hc : List.Chain' (· < ·) edges) (ha : edges.get? i = some a)
    (hb : edges.get? (i + 1) = some b) (hax : a ≤ x) (hxb : x < b) :
    bucket edges iu io x = some (i + 1) := by
  cases edges with
  | nil => simp [List.get?] at ha
  | cons e0 rest =>
    have he0a : e0 ≤ a := chain'_head_le e0 rest i a hc ha
    have hnotu : ¬ (iu = true ∧ x < e0) :=
      fun hcon => absurd hcon.2 (not_lt.mpr (le_trans he0a hax))
    have hfi : findIv (e0 :: rest) x = some i :=
      findIv_eq _ x i a b hc ha hb hax hxb
    simp only [bucket, hfi]
    rw [if_neg hnotu]

theorem bucket_over (edges : List Int) (iu : Bool) (x el : Int)
    (hc : List.Chain' (· < ·) edges) (hl : edges.getLast? = some el)
    (hx : el ≤ x) : bucket edges iu true x = some edges.length := by
  cases edges with
  | nil => simp [List.getLast?] at hl
  | cons e0 rest =>
    have hgl : (e0 :: rest).getLast (List.cons_ne_nil e0 rest) = el := by
      have h1 := List.getLast?_eq_getLast (e0 :: rest) (List.cons_ne_nil e0 rest)
      rw [h1] at hl
      injection hl
    have h0el : e0 ≤ el := hgl ▸ chain'_head_le_getLast e0 rest hc
    have hnotu : ¬ (iu = true ∧ x < e0) :=
      fun hcon => absurd hcon.2 (not_lt.mpr (le_trans h0el hx))
    have hfi : findIv (e0 :: rest) x = none := findIv_above _ x el hc hl hx
    simp only [bucket, hfi]
    rw [if_neg hnotu, hgl, if_pos ⟨trivial, hx⟩]
    rfl

theorem bucket_no_under (edges : List Int) (io : Bool) (x e0 : Int)
    (hc : List.Chain' (· < ·) edges) (h0 : edges.head? = some e0)
    (hx : x < e0) : bucket edges false io x = none := by
  cases edges with
  | nil => rfl
  | cons e1 rest =>
    injection h0 with h0
    subst h0
    have hfi : findIv (e1 :: rest) x = none := findIv_below _ x e1 hc rfl hx
    have hle : e1 ≤ (e1 :: rest).getLast (List.cons_ne_nil e1 rest) :=
      chain'_head_le_getLast e1 rest hc
    have hnoto : ¬ (io = true ∧
        (e1 :: rest).getLast (List.cons_ne_nil e1 rest) ≤ x) :=
      fun hcon => absurd (le_trans hle hcon.2) (not_le.mpr hx)
    have hnotu : ¬ (false = true ∧ x < e1) :=
      fun hcon => Bool.false_ne_true hcon.1
    simp only [bucket, hfi]
    rw [if_neg hnotu, if_neg hnoto]

theorem bucket_no_over (edges : List Int) (iu : Bool) (x el : Int)
    (hc : List.Chain' (· < ·) edges) (hl : edges.getLast? = some el)
    (hx : el ≤ x) : bucket edges iu false x = none := by
  cases edges with
  | nil => rfl
  | cons e0 rest =>
    have hgl : (e0 :: rest).getLast (List.cons_ne_nil e0 rest) = el := by
      have h1 := List.getLast?_eq_getLast (e0 :: rest) (List.cons_ne_nil e0 rest)
      rw [h1] at hl
      injection hl
    have h0el : e0 ≤ el := hgl ▸ chain'_head_le_getLast e0 rest hc
    have hnotu : ¬ (iu = true ∧ x < e0) :=
      fun hcon => absurd hcon.2 (not_lt.mpr (le_trans h0el hx))
    have hfi : findIv (e0 :: rest) x = none := findIv_above _ x el hc hl hx
    have hnoto : ¬ (false = true ∧
        (e0 :: rest).getLast (List.cons_ne_nil e0 rest) ≤ x) :=
      fun hcon => Bool.false_ne_true hcon.1
    simp only [bucket, hfi]
    rw [if_neg hnotu, if_neg hnoto]

/-- C1: Bucketize over strictly increasing edges assigns bucket 0 below the
first edge when the under bucket is included, bucket i+1 on the interval
edges[i] ≤ v < edges[i+1], the final bucket at or above the last edge when
the over bucket is included, null when the value falls in no bucket and for
null inputs; for the notebook's edges and labels, 5 maps to "<10", 10 to
"10-50", 5000 to "5000+", and -1 to "<10" with the under bucket but to null
without it. -/
theorem C1_bucketize_spec :
    (∀ (edges : List Int) (io : Bool) (x e0 : Int),
        edges.head? = some e0 → x < e0 → bucket edges true io x = some 0) ∧
    (∀ (edges : List Int) (iu io : Bool) (x a b : Int) (i : Nat),
        List.Chain' (· < ·) edges → edges.get? i = some a →
        edges.get? (i + 1) = some b → a ≤ x → x < b →
        bucket edges iu io x = some (i + 1)) ∧
    (∀ (edges : List Int) (iu : Bool) (x el : Int),
        List.Chain' (· < ·) edges → edges.getLast? = some el → el ≤ x →
        bucket edges iu true x = some edges.length) ∧
    (∀ (edges : List Int) (io : Bool) (x e0 : Int),
        List.Chain' (· < ·) edges → edges.head? = some e0 → x < e0 →
        bucket edges false io x = none) ∧
    (∀ (edges : List Int) (iu : Bool) (x el : Int),
        List.Chain' (· < ·) edges → edges.getLast? = some el → el ≤ x →
        bucket edges iu false x = none) ∧
    (∀ (edges : List Int) (iu io : Bool),
        bucketV edges iu io Val.vNull = Val.vNull) ∧
    bucketize nbEdges nbLabels (Val.vInt 5) = Val.vStr "<10" ∧
    bucketize nbEdges nbLabels (Val.vInt 10) = Val.vStr "10-50" ∧
    bucketize nbEdges nbLabels (Val.vInt 5000) = Val.vStr "5000+" ∧
    bucketize nbEdges nbLabels (Val.vInt (-1)) = Val.vStr "<10" ∧
    bucket nbEdges true true (-1) = some 0 ∧
    bucket nbEdges false true (-1) = none := by
  refine ⟨?_, ?_, ?_, ?_, ?_, ?_, ?_, ?_, ?_, ?_, ?_, ?_⟩
  · exact fun edges io x e0 h0 hx => bucket_under edges io x e0 h0 hx
  · exact fun edges iu io x a b i hc ha hb hax hxb =>
      bucket_interior edges iu io x a b i hc ha hb hax hxb
  · exact fun edges iu x el hc hl hx => bucket_over edges iu x el hc hl hx
  · exact fun edges io x e0 hc h0 hx => bucket_no_under edges io x e0 hc h0 hx
  · exact fun edges iu x el hc hl hx => bucket_no_over edges iu x el hc hl hx
  · exact fun edges iu io => rfl
  · decide
  · decide
  · decide
  · decide
  · decide
  · decide

theorem chainTenFifty : List.Chain' (· < ·) ([10, 50] : List Int) :=
  List.chain'_cons.mpr ⟨by norm_num, List.chain'_singleton 50⟩

theorem C1_bucketize_witness :
    bucket [10, 50] true true 12 = some 1 ∧
    bucket [10, 50] true false 60 = none ∧
    bucket [10, 50] true true 3 = some 0 ∧
    bucket [10, 50] false true 3 = none ∧
    bucket [10, 50] false true 60 = some 2 :=
  ⟨C1_bucketize_spec.2.1 [10, 50] true true 12 10 50 0 chainTenFifty rfl rfl
      (by norm_num) (by norm_num),
   C1_bucketize_spec.2.2.2.2.1 [10, 50] true 60 50 chainTenFifty rfl
      (by norm_num),
   C1_bucketize_spec.1 [10, 50] true 3 10 rfl (by norm_num),
   C1_bucketize_spec.2.2.2.1 [10, 50] true 3 10 chainTenFifty rfl (by norm_num),
   C1_bucketize_spec.2.2.1 [10, 50] false 60 50 chainTenFifty rfl (by norm_num)⟩

theorem C9_get_election_type_witness :
    get_election_type (Val.vStr "P2018") = Val.vStr "primary" ∧
    get_election_type (Val.vStr "X") = Val.vNull :=
  ⟨C9_get_election_type_spec.2.1 "P2018" (by decide),
   C9_get_election_type_spec.2.2.2.2.2.2.2.2.1 "X" (by decide)⟩

/-- C5: the schema of the materialized table returned by `execute` equals
the statically computed schema of the node — the schema is
execution-independent. -/
theorem C5_schema_execution_independent (node : RelOp) :
    (execute node).schema = staticSchema node := by
  induction node with
  | scan t => rfl
  | filter p c ih => simpa [execute, staticSchema] using ih
  | project cols c ih => simp [execute, staticSchema, ih]
  | dropC names c ih => simp [execute, staticSchema, ih]
  | join key l r ihl ihr => simp [execute, staticSchema, ihl, ihr]
  | groupAgg keys aggs c ih => simp [execute, staticSchema, ih]
  | orderBy key desc c ih => simp [execute, staticSchema, ih]
  | limit n c ih => simp [execute, staticSchema, ih]
  | cache c ih => simpa [execute, staticSchema] using ih

/-- C7: the inner equi-join of ids 1,2,3 against ids 2,3,4 on `id` yields
exactly the rows with ids 2 and 3, and the output schema is the union of
both input schemas with the key column de-duplicated. -/
theorem C7_inner_join :
    execute (RelOp.join "id" (RelOp.scan leftT) (RelOp.scan rightT)) =
      ⟨[("id", Ty.tInt), ("lv", Ty.tStr), ("rv", Ty.tStr)],
       [[("id", Val.vInt 2), ("lv", Val.vStr "b"), ("rv", Val.vStr "x")],
        [("id", Val.vInt 3), ("lv", Val.vStr "c"), ("rv", Val.vStr "y")]]⟩ := by
  decide

/-- C3: the sum window aggregate over the three-row table gives per-row
totals 4, 4, 2; the fractions of the first two rows sum to exactly 1; and a
window aggregate stacked on a group-by is computed over the already-grouped
rowset, as witnessed both by the general projection equation and by a
per-partition row count of 1 on a grouped table built from two raw rows. -/
theorem C3_window_composition :
    (execute winNode).rows =
      [[("k", Val.vStr "a"), ("v", Val.vInt 1), ("total", Val.vInt 4),
        ("frac", Val.vRat (((1 : Int) : ℚ) / ((4 : Int) : ℚ)))],
       [("k", Val.vStr "a"), ("v", Val.vInt 3), ("total", Val.vInt 4),
        ("frac", Val.vRat (((3 : Int) : ℚ) / ((4 : Int) : ℚ)))],
       [("k", Val.vStr "b"), ("v", Val.vInt 2), ("total", Val.vInt 2),
        ("frac", Val.vRat (((2 : Int) : ℚ) / ((2 : Int) : ℚ)))]] ∧
    lookupVal ((execute winNode).rows.getD 0 []) "frac" = Val.vRat (1 / 4) ∧
    lookupVal ((execute winNode).rows.getD 1 []) "frac" = Val.vRat (3 / 4) ∧
    lookupVal ((execute winNode).rows.getD 2 []) "frac" = Val.vRat 1 ∧
    valAdd (lookupVal ((execute winNode).rows.getD 0 []) "frac")
        (lookupVal ((execute winNode).rows.getD 1 []) "frac") = Val.vRat 1 ∧
    (∀ (cols : List (String × SExpr)) (keys : List (String × SExpr))
        (aggs : List (String × AggExpr)) (c : RelOp),
        (execute (RelOp.project cols (RelOp.groupAgg keys aggs c))).rows =
          (execute (RelOp.groupAgg keys aggs c)).rows.map (fun r =>
            cols.map (fun p =>
              (p.1, evalV (execute (RelOp.groupAgg keys aggs c)).rows r p.2)))) ∧
    (execute gStack).rows = [[("k", Val.vStr "a"), ("nrows", Val.vInt 1)]] := by
  have h0 : lookupVal ((execute winNode).rows.getD 0 []) "frac"
      = Val.vRat (((1 : Int) : ℚ) / ((4 : Int) : ℚ)) := rfl
  have h1 : lookupVal ((execute winNode).rows.getD 1 []) "frac"
      = Val.vRat (((3 : Int) : ℚ) / ((4 : Int) : ℚ)) := rfl
  have h2 : lookupVal ((execute winNode).rows.getD 2 []) "frac"
      = Val.vRat (((2 : Int) : ℚ) / ((2 : Int) : ℚ)) := rfl
  refine ⟨rfl, ?_, ?_, ?_, ?_, ?_, ?_⟩
  · rw [h0]
    norm_num
  · rw [h1]
    norm_num
  · rw [h2]
    norm_num
  · rw [h0, h1]
    show Val.vRat (((1 : Int) : ℚ) / ((4 : Int) : ℚ)
        + ((3 : Int) : ℚ) / ((4 : Int) : ℚ)) = Val.vRat 1
    norm_num
  · intro cols keys aggs c
    rfl
  · decide

theorem valDiv_zero (x : Val) : valDiv x (Val.vInt 0) = Val.vNull := by
  cases x <;> simp [valDiv]

/-- C6: a division whose divisor — in particular a window/partition total —
evaluates to zero yields null; evaluation is a total function, so the
division can never raise a runtime failure. -/
theorem C6_div_by_zero_null :
    (∀ (rows : List Row) (r : Row) (a b : SExpr),
        evalV rows r b = Val.vInt 0 →
        evalV rows r (SExpr.divE a b) = Val.vNull) ∧
    (∀ (rows : List Row) (r : Row) (part : List String) (e v : SExpr),
        evalV rows r (SExpr.winSum part e) = Val.vInt 0 →
        evalV rows r (SExpr.divE v (SExpr.winSum part e)) = Val.vNull) := by
  constructor
  · intro rows r a b hb
    show valDiv (evalV rows r a) (evalV rows r b) = Val.vNull
    rw [hb]
    exact valDiv_zero _
  · intro rows r part e v h
    show valDiv (evalV rows r v) (evalV rows r (SExpr.winSum part e)) = Val.vNull
    rw [h]
    exact valDiv_zero _

theorem C6_div_by_zero_witness :
    evalV [zeroRow] zeroRow
        (SExpr.divE (SExpr.col "v") (SExpr.winSum ["k"] (SExpr.col "v")))
      = Val.vNull :=
  C6_div_by_zero_null.2 [zeroRow] zeroRow ["k"] (SExpr.col "v") (SExpr.col "v")
    (by decide)

theorem materialize_twice (c : RelOp) :
    ((materializeCached c (materializeCached c emptyState).2).2).runLog = [c] := by
  have h1 : (materializeCached c emptyState).2 = ⟨[(c, execute c)], [c]⟩ := rfl
  rw [h1]
  have h2 : (([(c, execute c)] : List (RelOp × Table)).find?
      (fun p => decide (p.1 = c))) = some (c, execute c) := by
    simp [List.find?]
  simp [materializeCached, h2]

theorem materialize_inv (c : RelOp) (s : MState)
    (h1 : s.runLog.Nodup)
    (h2 : ∀ d : RelOp, d ∈ s.runLog → d ∈ s.cacheMap.map Prod.fst) :
    ((materializeCached c s).2).runLog.Nodup ∧
      ∀ d : RelOp, d ∈ ((materializeCached c s).2).runLog →
        d ∈ ((materializeCached c s).2).cacheMap.map Prod.fst := by
  cases hf : s.cacheMap.find? (fun p => decide (p.1 = c)) with
  | some p =>
    simp only [materializeCached, hf]
    exact ⟨h1, h2⟩
  | none =>
    have hcnot : c ∉ s.cacheMap.map Prod.fst := by
      intro hmem
      rcases List.mem_map.mp hmem with ⟨q, hq, hq1⟩
      have hnone := List.find?_eq_none.mp hf q hq
      rw [hq1] at hnone
      simp at hnone
    have hcrun : c ∉ s.runLog := fun hr => hcnot (h2 c hr)
    simp only [materializeCached, hf]
    constructor
    · refine List.Nodup.append h1 (List.nodup_singleton c) ?_
      intro a ha hb
      rw [List.mem_singleton] at hb
      subst hb
      exact hcrun ha
    · intro d hd
      simp only [List.map_cons]
      rcases List.mem_append.mp hd with hd | hd
      · exact List.mem_cons_of_mem _ (h2 d hd)
      · rw [List.mem_singleton] at hd
        subst hd
        exact List.mem_cons_self _ _

theorem runMany_inv_aux (cs : List RelOp) (s : MState)
    (h1 : s.runLog.Nodup)
    (h2 : ∀ d : RelOp, d ∈ s.runLog → d ∈ s.cacheMap.map Prod.fst) :
    (cs.foldl (fun s c => (materializeCached c s).2) s).runLog.Nodup ∧
      ∀ d : RelOp,
        d ∈ (cs.foldl (fun s c => (materializeCached c s).2) s).runLog →
        d ∈ (cs.foldl (fun s c =>
          (materializeCached c s).2) s).cacheMap.map Prod.fst := by
  induction cs generalizing s with
  | nil => exact ⟨h1, h2⟩
  | cons c cs ih =>
    simp only [List.foldl]
    have hstep := materialize_inv c s h1 h2
    exact ih _ hstep.1 hstep.2

/-- C4: materializing the same cached subtree twice invokes the backend run
primitive exactly once; any session performs at most one run per distinct
cached subtree; and a structurally different subtree — in particular a
filter with a different predicate — has a different fingerprint and
triggers its own run. -/
theorem C4_cache_at_most_once :
    (∀ c : RelOp,
        ((materializeCached c
          (materializeCached c emptyState).2).2).runLog = [c]) ∧
    (∀ (cs : List RelOp) (c : RelOp), (runMany cs).runLog.count c ≤ 1) ∧
    (∀ c c' : RelOp, c ≠ c' →
        ((materializeCached c'
          (materializeCached c emptyState).2).2).runLog = [c, c']) ∧
    (∀ (p q : SExpr) (t : RelOp), p ≠ q →
        RelOp.filter p t ≠ RelOp.filter q t) := by
  refine ⟨materialize_twice, ?_, ?_, ?_⟩
  · intro cs c
    have h := runMany_inv_aux cs emptyState List.nodup_nil
      (by intro d hd; cases hd)
    exact List.nodup_iff_count_le_one.mp h.1 c
  · intro c c' hne
    have h1 : (materializeCached c emptyState).2 = ⟨[(c, execute c)], [c]⟩ := rfl
    rw [h1]
    have h2 : (([(c, execute c)] : List (RelOp × Table)).find?
        (fun p => decide (p.1 = c'))) = none := by
      simp [List.find?, hne]
    simp [materializeCached, h2]
  · intro p q t hpq hcon
    exact hpq (by injection hcon)

theorem evalB_eq_col_lit (rows : List Row) (r : Row) (n s : String)
    (h : evalB rows r (SExpr.eqE (SExpr.col n) (SExpr.litS s)) = true) :
    lookupVal r n = Val.vStr s := by
  have h' : (match valEq (lookupVal r n) (Val.vStr s) with
      | Val.vBool b => b
      | _ => false) = true := h
  cases hv : lookupVal r n with
  | vInt i =>
    rw [hv] at h'
    simp [valEq] at h'
  | vRat q =>
    rw [hv] at h'
    simp [valEq] at h'
  | vStr t =>
    rw [hv] at h'
    simp [valEq] at h'
    rw [h']
  | vBool b =>
    rw [hv] at h'
    simp [valEq] at h'
  | vDate y m d =>
    rw [hv] at h'
    simp [valEq] at h'
  | vNull =>
    rw [hv] at h'
    simp [valEq] at h'

theorem evalB_gt_col_zero (rows : List Row) (r : Row) (n : String)
    (h : evalB rows r (SExpr.gtE (SExpr.col n) (SExpr.litI 0)) = true) :
    ∃ a : Int, 0 < a ∧ lookupVal r n = Val.vInt a := by
  have h' : (match valGt (lookupVal r n) (Val.vInt 0) with
      | Val.vBool b => b
      | _ => false) = true := h
  cases hv : lookupVal r n with
  | vInt i =>
    rw [hv] at h'
    simp [valGt] at h'
    exact ⟨i, h', rfl⟩
  | vRat q =>
    rw [hv] at h'
    simp [valGt] at h'
  | vStr t =>
    rw [hv] at h'
    simp [valGt] at h'
  | vBool b =>
    rw [hv] at h'
    simp [valGt] at h'
  | vDate y m d =>
    rw [hv] at h'
    simp [valGt] at h'
  | vNull =>
    rw [hv] at h'
    simp [valGt] at h'

theorem find_filter_keep (r : Row) (names : List String) (n : String)
    (hn : n ∉ names) :
    (r.filter (fun p => decide (p.1 ∉ names))).find? (fun p => decide (p.1 = n))
      = r.find? (fun p => decide (p.1 = n)) := by
  induction r with
  | nil => rfl
  | cons p r ih =>
    by_cases hp : p.1 = n
    · have hkeep : decide (p.1 ∉ names) = true := by
        rw [hp]
        exact decide_eq_true hn
      rw [List.filter_cons, if_pos hkeep]
      simp only [List.find?, decide_eq_true hp]
    · cases hkeep : decide (p.1 ∉ names) with
      | true =>
        rw [List.filter_cons, if_pos hkeep]
        simp only [List.find?, decide_eq_false hp]
        exact ih
      | false =>
        rw [List.filter_cons,
          if_neg (by rw [hkeep]; exact Bool.false_ne_true)]
        rw [ih]
        simp only [List.find?, decide_eq_false hp]

theorem lookup_filter_keep (r : Row) (names : List String) (n : String)
    (hn : n ∉ names) :
    lookupVal (r.filter (fun p => decide (p.1 ∉ names))) n = lookupVal r n := by
  simp only [lookupVal, find_filter_keep r names n hn]

theorem lookup_mutate_row (sc : List (String × Ty)) (name : String) (e : SExpr)
    (rows : List Row) (r : Row) (n : String) (hn : n ∈ sc.map Prod.fst) :
    lookupVal
      ((sc.map (fun p => (p.1, SExpr.col p.1)) ++ [(name, e)]).map
        (fun p => (p.1, evalV rows r p.2))) n = lookupVal r n := by
  induction sc with
  | nil => cases hn
  | cons q sc ih =>
    by_cases hq : q.1 = n
    · simp only [List.map_cons, List.cons_append, lookupVal, List.find?,
        decide_eq_true hq]
      show lookupVal r q.1 = lookupVal r n
      rw [hq]
    · have hn' : n ∈ sc.map Prod.fst := by
        rw [List.map_cons] at hn
        rcases List.mem_cons.mp hn with h | h
        · exact absurd h.symm hq
        · exact h
      simp only [List.map_cons, List.cons_append, lookupVal, List.find?,
        decide_eq_false hq]
      exact ih hn'

theorem mutate_schema_names (name : String) (e : SExpr) (c : RelOp) :
    (staticSchema (mutate name e c)).map Prod.fst
      = (staticSchema c).map Prod.fst ++ [name] := by
  simp [mutate, staticSchema, List.map_append, List.map_map, Function.comp]

theorem dropC_schema_names (names : List String) (c : RelOp) (n : String)
    (hn : n ∈ (staticSchema c).map Prod.fst) (hnot : n ∉ names) :
    n ∈ (staticSchema (RelOp.dropC names c)).map Prod.fst := by
  rcases List.mem_map.mp hn with ⟨p, hp, hp1⟩
  refine List.mem_map.mpr ⟨p, ?_, hp1⟩
  simp only [staticSchema]
  refine List.mem_filter.mpr ⟨hp, ?_⟩
  rw [hp1]
  exact decide_eq_true hnot

theorem filter_rows_sub (p : SExpr) (c : RelOp) (r : Row)
    (hr : r ∈ (execute (RelOp.filter p c)).rows) :
    r ∈ (execute c).rows ∧ evalB (execute c).rows r p = true := by
  simp only [execute] at hr
  exact List.mem_filter.mp hr

theorem dropC_rows_lookup (names : List String) (c : RelOp) (n : String)
    (hnot : n ∉ names) (r : Row)
    (hr : r ∈ (execute (RelOp.dropC names c)).rows) :
    ∃ r1 ∈ (execute c).rows, lookupVal r n = lookupVal r1 n := by
  simp only [execute] at hr
  rcases List.mem_map.mp hr with ⟨r1, hr1, hr1eq⟩
  refine ⟨r1, hr1, ?_⟩
  rw [← hr1eq]
  exact lookup_filter_keep r1 names n hnot

theorem mutate_rows_lookup (name : String) (e : SExpr) (c : RelOp) (n : String)
    (hn : n ∈ (staticSchema c).map Prod.fst) (r : Row)
    (hr : r ∈ (execute (mutate name e c)).rows) :
    ∃ r1 ∈ (execute c).rows, lookupVal r n = lookupVal r1 n := by
  simp only [mutate, execute] at hr
  rcases List.mem_map.mp hr with ⟨r1, hr1, hr1eq⟩
  refine ⟨r1, hr1, ?_⟩
  rw [← hr1eq]
  exact lookup_mutate_row (staticSchema c) name e (execute c).rows r1 n hn

theorem amt_in_ind_schema (contribs comms : Table)
    (hamt : "TRANSACTION_AMT" ∈
      (staticSchema (togetherOp contribs comms)).map Prod.fst) :
    "TRANSACTION_AMT" ∈
      (staticSchema (cleanedIndOp contribs comms)).map Prod.fst :=
  dropC_schema_names ["ENTITY_TP"] _ _ hamt (by decide)

theorem amt_in_date_schema (contribs comms : Table)
    (hamt : "TRANSACTION_AMT" ∈
      (staticSchema (togetherOp contribs comms)).map Prod.fst) :
    "TRANSACTION_AMT" ∈
      (staticSchema (cleanedDateOp contribs comms)).map Prod.fst := by
  refine dropC_schema_names ["TRANSACTION_DT"] _ _ ?_ (by decide)
  rw [mutate_schema_names]
  exact List.mem_append.mpr (Or.inl (amt_in_ind_schema contribs comms hamt))

theorem amt_in_election_schema (contribs comms : Table)
    (hamt : "TRANSACTION_AMT" ∈
      (staticSchema (togetherOp contribs comms)).map Prod.fst) :
    "TRANSACTION_AMT" ∈
      (staticSchema (cleanedElectionOp contribs comms)).map Prod.fst := by
  refine dropC_schema_names ["TRANSACTION_PGI"] _ _ ?_ (by decide)
  rw [mutate_schema_names]
  exact List.mem_append.mpr (Or.inl (amt_in_date_schema contribs comms hamt))

theorem cleanedInd_rows (contribs comms : Table) (r : Row)
    (hr : r ∈ (execute (cleanedIndOp contribs comms)).rows) :
    ∃ r0 ∈ (execute (togetherOp contribs comms)).rows,
      lookupVal r0 "ENTITY_TP" = Val.vStr "IND" ∧
      lookupVal r "TRANSACTION_AMT" = lookupVal r0 "TRANSACTION_AMT" := by
  have hr' : r ∈ (execute (RelOp.dropC ["ENTITY_TP"]
      (RelOp.filter (SExpr.eqE (SExpr.col "ENTITY_TP") (SExpr.litS "IND"))
        (togetherOp contribs comms)))).rows := hr
  rcases dropC_rows_lookup ["ENTITY_TP"] _ "TRANSACTION_AMT" (by decide) r hr'
    with ⟨r1, hr1, he1⟩
  have h2 := filter_rows_sub _ _ r1 hr1
  exact ⟨r1, h2.1, evalB_eq_col_lit _ _ _ _ h2.2, he1⟩

theorem cleaned_invariant (contribs comms : Table)
    (hamt : "TRANSACTION_AMT" ∈
      (staticSchema (togetherOp contribs comms)).map Prod.fst)
    (r : Row) (hr : r ∈ (execute (cleanedOp contribs comms)).rows) :
    amtPos r ∧ origIND contribs comms r := by
  have hr0 : r ∈ (execute (RelOp.filter
      (SExpr.gtE (SExpr.col "TRANSACTION_AMT") (SExpr.litI 0))
      (cleanedElectionOp contribs comms))).rows := hr
  have h1 := filter_rows_sub _ _ r hr0
  refine ⟨evalB_gt_col_zero _ r "TRANSACTION_AMT" h1.2, ?_⟩
  have h1a : r ∈ (execute (RelOp.dropC ["TRANSACTION_PGI"]
      (mutate "election_type"
        (SExpr.substE election_types SExpr.litNull
          (SExpr.firstE (SExpr.col "TRANSACTION_PGI")))
        (cleanedDateOp contribs comms)))).rows := h1.1
  rcases dropC_rows_lookup ["TRANSACTION_PGI"] _ "TRANSACTION_AMT" (by decide)
    r h1a with ⟨r2, hr2, he2⟩
  rcases mutate_rows_lookup "election_type" _ (cleanedDateOp contribs comms)
    "TRANSACTION_AMT" (amt_in_date_schema contribs comms hamt) r2 hr2
    with ⟨r3, hr3, he3⟩
  have h3a : r3 ∈ (execute (RelOp.dropC ["TRANSACTION_DT"]
      (mutate "date" (SExpr.toDateE (SExpr.col "TRANSACTION_DT"))
        (cleanedIndOp contribs comms)))).rows := hr3
  rcases dropC_rows_lookup ["TRANSACTION_DT"] _ "TRANSACTION_AMT" (by decide)
    r3 h3a with ⟨r4, hr4, he4⟩
  rcases mutate_rows_lookup "date" _ (cleanedIndOp contribs comms)
    "TRANSACTION_AMT" (amt_in_ind_schema contribs comms hamt) r4 hr4
    with ⟨r5, hr5, he5⟩
  rcases cleanedInd_rows contribs comms r5 hr5 with ⟨r0, hr0m, hind, he0⟩
  exact ⟨r0, hr0m, hind, by rw [he2, he3, he4, he5, he0]⟩

theorem featured_invariant (contribs comms : Table)
    (hamt : "TRANSACTION_AMT" ∈
      (staticSchema (togetherOp contribs comms)).map Prod.fst)
    (r : Row) (hr : r ∈ (execute (featuredOp contribs comms)).rows) :
    amtPos r ∧ origIND contribs comms r := by
  have hr' : r ∈ (execute (mutate "amount_bucket"
      (SExpr.substSelfE (int_to_str nbLabels)
        (SExpr.castS
          (SExpr.bucketE nbEdges true true (SExpr.col "TRANSACTION_AMT"))))
      (cleanedOp contribs comms))).rows := hr
  rcases mutate_rows_lookup _ _ (cleanedOp contribs comms) "TRANSACTION_AMT"
      (amt_in_election_schema contribs comms hamt) r hr' with ⟨r1, hr1, he⟩
  rcases cleaned_invariant contribs comms hamt r1 hr1
    with ⟨⟨a, ha, hla⟩, r0, hr0, hind, he0⟩
  exact ⟨⟨a, ha, by rw [he, hla]⟩, r0, hr0, hind, by rw [he, he0]⟩

theorem subset_invariant (contribs comms : Table)
    (hamt : "TRANSACTION_AMT" ∈
      (staticSchema (togetherOp contribs comms)).map Prod.fst)
    (r : Row) (hr : r ∈ (execute (subsetOp contribs comms)).rows) :
    amtPos r ∧ origIND contribs comms r := by
  have hr' : r ∈ ((execute (featuredOp contribs comms)).rows.map (fun r1 =>
      ([ ("election_type", SExpr.col "election_type")
       , ("amount_bucket", SExpr.col "amount_bucket")
       , ("TRANSACTION_AMT", SExpr.col "TRANSACTION_AMT") ]).map
        (fun p => (p.1, evalV (execute (featuredOp contribs comms)).rows r1 p.2)))) :=
    hr
  rcases List.mem_map.mp hr' with ⟨r1, hr1, hr1eq⟩
  have he : lookupVal r "TRANSACTION_AMT" = lookupVal r1 "TRANSACTION_AMT" := by
    rw [← hr1eq]
    rfl
  rcases featured_invariant contribs comms hamt r1 hr1
    with ⟨⟨a, ha, hla⟩, r0, hr0, hind, he0⟩
  exact ⟨⟨a, ha, by rw [he, hla]⟩, r0, hr0, hind, by rw [he, he0]⟩

/-- C10: every row of the cleaned, featured and cached-subset tables has a
positive integer transaction amount and originates from a joined row whose
entity type is IND and which carries the same amount; every partition of
any group-by summary over the subset or featured tables consists of such
rows only, so no aggregate ever includes a non-individual or non-positive
contribution. -/
theorem C10_cleaning_invariant (contribs comms : Table)
    (hamt : "TRANSACTION_AMT" ∈
      (staticSchema (togetherOp contribs comms)).map Prod.fst) :
    (∀ r ∈ (execute (cleanedOp contribs comms)).rows,
        amtPos r ∧ origIND contribs comms r) ∧
    (∀ r ∈ (execute (featuredOp contribs comms)).rows,
        amtPos r ∧ origIND contribs comms r) ∧
    (∀ r ∈ (execute (subsetOp contribs comms)).rows,
        amtPos r ∧ origIND contribs comms r) ∧
    (∀ (keys : List (String × SExpr)) (k : List (String × Val)) (r : Row),
        r ∈ partRows (execute (subsetOp contribs comms)).rows keys k →
        amtPos r ∧ origIND contribs comms r) ∧
    (∀ (keys : List (String × SExpr)) (k : List (String × Val)) (r : Row),
        r ∈ partRows (execute (featuredOp contribs comms)).rows keys k →
        amtPos r ∧ origIND contribs comms r) := by
  refine ⟨?_, ?_, ?_, ?_, ?_⟩
  · exact fun r hr => cleaned_invariant contribs comms hamt r hr
  · exact fun r hr => featured_invariant contribs comms hamt r hr
  · exact fun r hr => subset_invariant contribs comms hamt r hr
  · intro keys k r hr
    exact subset_invariant contribs comms hamt r (List.mem_filter.mp hr).1
  · intro keys k r hr
    exact featured_invariant contribs comms hamt r (List.mem_filter.mp hr).1

theorem C10_cleaning_invariant_witness :
    amtPos featRowW ∧ origIND contribsW commsW featRowW :=
  (C10_cleaning_invariant contribsW commsW (by decide)).2.1 featRowW (by decide)

theorem C4_cache_witness :
    ((materializeCached (RelOp.limit 1 (RelOp.scan (Table.mk [] [])))
        (materializeCached (RelOp.scan (Table.mk [] [])) emptyState).2).2).runLog
      = [RelOp.scan (Table.mk [] []),
         RelOp.limit 1 (RelOp.scan (Table.mk [] []))] ∧
    RelOp.filter (SExpr.litI 0) (RelOp.scan (Table.mk [] []))
      ≠ RelOp.filter (SExpr.litI 1) (RelOp.scan (Table.mk [] [])) :=
  ⟨C4_cache_at_most_once.2.2.1 (RelOp.scan (Table.mk [] []))
      (RelOp.limit 1 (RelOp.scan (Table.mk [] []))) (by decide),
   C4_cache_at_most_once.2.2.2 (SExpr.litI 0) (SExpr.litI 1)
      (RelOp.scan (Table.mk [] [])) (by decide)⟩

end CampFin
